import Mathlib

/-!
Verification development for the Support Toolkit background job processor
and URL sanitizer (src/unnamed/part_006: utils.js `sanitizeUrl` and
job-processor.js `processUrlJob` / `createTabWithRetry` / `cancelJob` /
`getRunningJobIds` / reaper sweep).

The JavaScript source is embedded shallowly:
* strings are `List Char` / `String`;
* the JS regexes are embedded by explicit backtracking searches that follow
  the greedy/lazy semantics of each concrete pattern;
* `new URL(...)`/`searchParams` are modelled by `queryOf`/`getParam`
  (scheme + authority + query extraction, percent/plus decoding; host
  validation restricted to the WHATWG forbidden-host code points, with `%`
  conservatively rejected);
* the asynchronous job processor is modelled as a deterministic function of
  an environment `JobEnv` that prescribes the outcome of every
  `chrome.tabs.create` attempt, the outcome of `chrome.tabs.group`, and the
  observable evolution of the job's registry entry (`cancelTick`: the poll
  index from which `cancelled` reads true; `reapTick`: the poll index from
  which the entry has been deleted by the reaper, making the poll read
  false). Every suspension point that reads the flag consumes one tick.
-/

namespace SupportToolkit

/-! ### JavaScript character classes -/

/-- JS `\s` (whitespace class used by `[^\s"'<>()]` and `[^&\s]`). -/
def jsWhitespace (c : Char) : Bool :=
  c == ' ' || c == '\t' || c == '\n' || c == Char.ofNat 11 || c == Char.ofNat 12 ||
  c == '\r' || c == Char.ofNat 160 || c == Char.ofNat 0x1680 ||
  (decide (Char.ofNat 0x2000 ≤ c) && decide (c ≤ Char.ofNat 0x200A)) ||
  c == Char.ofNat 0x2028 || c == Char.ofNat 0x2029 || c == Char.ofNat 0x202F ||
  c == Char.ofNat 0x205F || c == Char.ofNat 0x3000 || c == Char.ofNat 0xFEFF

/-- JS line terminators (not matched by `.`). -/
def lineTerm (c : Char) : Bool :=
  c == '\n' || c == '\r' || c == Char.ofNat 0x2028 || c == Char.ofNat 0x2029

/-- The class `[^\s"'<>()]`. -/
def urlClassChar (c : Char) : Bool :=
  !(jsWhitespace c || c == '"' || c == Char.ofNat 39 || c == '<' || c == '>' ||
    c == '(' || c == ')')

/-- The class `[^&\s]`. -/
def nonAmpSpace (c : Char) : Bool :=
  !(c == '&' || jsWhitespace c)

/-- ASCII uppercase, i.e. the JS class `[A-Z]` (no `i` flag). -/
def isUpperAZ (c : Char) : Bool :=
  decide ('A' ≤ c) && decide (c ≤ 'Z')

/-- The class `[a-z0-9/]` under the `i` flag. -/
def alnumSlash (c : Char) : Bool :=
  (decide ('a' ≤ c.toLower) && decide (c.toLower ≤ 'z')) ||
  (decide ('0' ≤ c) && decide (c ≤ '9')) || c == '/'

/-- The class `[a-zA-Z0-9-]` (host labels of the mp4 pattern). -/
def labelChar (c : Char) : Bool :=
  (decide ('a' ≤ c.toLower) && decide (c.toLower ≤ 'z')) || c.isDigit || c == '-'

/-- The class `[a-zA-Z0-9/._-]` (path of the mp4 pattern). -/
def mp4PathChar (c : Char) : Bool :=
  (decide ('a' ≤ c.toLower) && decide (c.toLower ≤ 'z')) || c.isDigit ||
  c == '/' || c == '.' || c == '_' || c == '-'

/-- Case-insensitive character comparison (ASCII folding, as JS `/i` on
ASCII patterns). -/
def eqCI (a b : Char) : Bool := a.toLower == b.toLower

/-- Case-insensitive "the pattern is a prefix of the string". -/
def startsWithCI : List Char → List Char → Bool
  | [], _ => true
  | _ :: _, [] => false
  | p :: ps, c :: cs => eqCI p c && startsWithCI ps cs

/-- Case-insensitive substring test (`/pat/i.test(s)` for a literal pat). -/
def containsCI (pat : List Char) : List Char → Bool
  | [] => pat.isEmpty
  | c :: cs => startsWithCI pat (c :: cs) || containsCI pat cs

/-- `String.prototype.indexOf` for a literal pattern (case-sensitive):
index of the first occurrence. -/
def firstOccur (pat : List Char) : List Char → Option Nat
  | [] => if pat.isEmpty then some 0 else none
  | c :: cs =>
    if pat.isPrefixOf (c :: cs) then some 0 else (firstOccur pat cs).map (· + 1)

/-! ### `sanitizeUrl` step 0: second-`?` normalization -/

/-- `afterQuery.replace(/\?/g, '&')`. -/
def replaceQs (l : List Char) : List Char :=
  l.map (fun c => if c == '?' then '&' else c)

/-- Rewrite every `?` after the first one to `&` (utils.js lines 59-64). -/
def cleanQuery : List Char → List Char
  | [] => []
  | c :: cs => if c == '?' then c :: replaceQs cs else c :: cleanQuery cs

/-! ### The three accepted shapes -/

/-- `https?:\/\/` (case-insensitive), returning the consumed prefix and
the remainder. -/
def matchScheme (s : List Char) : Option (List Char × List Char) :=
  if startsWithCI "https://".data s then some (s.take 8, s.drop 8)
  else if startsWithCI "http://".data s then some (s.take 7, s.drop 7)
  else none

/-- The literal `index.html?id=` of the shape-A regex (14 chars). -/
def idPat : List Char := "index.html?id=".data

/-- One backtracking step of the shape-A regex at run length `q`:
`[^\s"'<>()]+` has consumed `q` chars, then the literal, then greedy
`([^&\s]+)` (must be nonempty), then `(.*)$` (no line terminators). -/
def idTry (rest : List Char) (q : Nat) : Option (Nat × List Char × List Char) :=
  if startsWithCI idPat (rest.drop q) then
    let tl := rest.drop (q + 14)
    let g2 := tl.takeWhile nonAmpSpace
    let g3 := tl.drop g2.length
    if !g2.isEmpty && g3.all (fun c => !lineTerm c) then some (q, g2, g3) else none
  else none

/-- Greedy backtracking: try run lengths `q, q-1, ..., 1`. -/
def idSearch (rest : List Char) : Nat → Option (Nat × List Char × List Char)
  | 0 => none
  | q + 1 =>
    match idTry rest (q + 1) with
    | some r => some r
    | none => idSearch rest q

/-- The shape-A regex
`^(https?:\/\/[^\s"'<>()]+index\.html\?id=)([^&\s]+)(.*)$/i`
returning (group1, group2, group3) on match. -/
def matchIndexId (s : List Char) : Option (List Char × List Char × List Char) :=
  match matchScheme s with
  | none => none
  | some (sch, rest) =>
    match idSearch rest (rest.takeWhile urlClassChar).length with
    | some (q, g2, g3) => some (sch ++ rest.take (q + 14), g2, g3)
    | none => none

/-- The literal `.m3u8` (matched case-insensitively under `/i`). -/
def extPat : List Char := ".m3u8".data

/-- Backtracking for `([a-z0-9/]+\.m3u8)` followed by `(.*)$`:
try class-run lengths `k, k-1, ..., 1`; on each, the `.m3u8` literal must
follow and the remainder must be free of line terminators. -/
def g2Srch (t : List Char) : Nat → Option (List Char × List Char)
  | 0 => none
  | k + 1 =>
    if startsWithCI extPat (t.drop (k + 1)) then
      let g3 := t.drop (k + 1 + 5)
      if g3.all (fun c => !lineTerm c) then some (t.take (k + 1 + 5), g3)
      else g2Srch t k
    else g2Srch t k

/-- Greedy entry point for `([a-z0-9/]+\.m3u8)(.*)$`. -/
def g2Try (t : List Char) : Option (List Char × List Char) :=
  g2Srch t (t.takeWhile alnumSlash).length

/-- Lazy `[^\s"'<>()]+?` before group 2: try lengths `r, r+1, ...`
(fuel bounds the maximal class run). -/
def m3u8Inner (tail2 : List Char) : Nat → Nat → Option (Nat × List Char × List Char)
  | 0, _ => none
  | fuel + 1, r =>
    match g2Try (tail2.drop r) with
    | some (g2, g3) => some (r, g2, g3)
    | none => m3u8Inner tail2 fuel (r + 1)

/-- One position of the lazy outer run: the literal `?url=` must follow,
then a second scheme, then the inner lazy run and group 2. -/
def m3u8OuterTry (rest : List Char) (q : Nat) : Option (Nat × List Char × List Char) :=
  if startsWithCI "?url=".data (rest.drop q) then
    match matchScheme (rest.drop (q + 5)) with
    | none => none
    | some (sch2, tail2) =>
      match m3u8Inner tail2 (tail2.takeWhile urlClassChar).length 1 with
      | some (r, g2, g3) => some (q + 5 + sch2.length + r, g2, g3)
      | none => none
  else none

/-- Lazy outer search: positions `q, q+1, ...`. -/
def m3u8Outer (rest : List Char) : Nat → Nat → Option (Nat × List Char × List Char)
  | 0, _ => none
  | fuel + 1, q =>
    match m3u8OuterTry rest q with
    | some r => some r
    | none => m3u8Outer rest fuel (q + 1)

/-- The shape-B regex
`^(https?:\/\/[^\s"'<>()]+?\?url=https?:\/\/[^\s"'<>()]+?)([a-z0-9/]+\.m3u8)(.*)$/i`
returning (group1, group2, group3). -/
def matchIndexM3u8 (s : List Char) : Option (List Char × List Char × List Char) :=
  match matchScheme s with
  | none => none
  | some (sch, rest) =>
    match m3u8Outer rest (rest.takeWhile urlClassChar).length 1 with
    | some (g1len, g2, g3) => some (sch ++ rest.take g1len, g2, g3)
    | none => none

/-- `(?:[a-zA-Z0-9-]+\.)*`: a sequence of nonempty labels each followed by
a dot (fuel = length of the list). -/
def labelsGo : Nat → List Char → Bool
  | _, [] => true
  | 0, _ :: _ => false
  | fuel + 1, a :: as =>
    match (a :: as).dropWhile labelChar with
    | [] => false
    | d :: rest2 =>
      if d = '.' then !((a :: as).takeWhile labelChar).isEmpty && labelsGo fuel rest2
      else false

/-- `[a-zA-Z0-9\/._-]+\.mp4$` (case-insensitive): all chars in class,
case-insensitive `.mp4` suffix, length at least 5. -/
def mp4SuffixOk (t : List Char) : Bool :=
  t.all mp4PathChar && decide (5 ≤ t.length) &&
  startsWithCI ".mp4".data (t.drop (t.length - 4))

/-- Scan for a split `labels ++ "idomoo.com/" ++ path.mp4` at positions
`m, m+1, ...`. -/
def mp4Scan (t : List Char) : Nat → Nat → Bool
  | _, 0 => false
  | m, fuel + 1 =>
    (startsWithCI "idomoo.com/".data (t.drop m) && labelsGo (t.take m).length (t.take m) &&
      mp4SuffixOk (t.drop (m + 11))) ||
    mp4Scan t (m + 1) fuel

/-- The mp4 regex
`^(https?:\/\/(?:[a-zA-Z0-9-]+\.)*idomoo\.com\/[a-zA-Z0-9\/._-]+\.mp4)$/i`;
group1 is the whole string. -/
def matchMp4 (s : List Char) : Option (List Char) :=
  match matchScheme s with
  | none => none
  | some (_, t) => if mp4Scan t 0 (t.length + 1) then some s else none

/-! ### The nested `&url=` rewrite inside shape A -/

/-- Backtracking for `([a-z0-9/]+\.m3u8)` with nothing after it
(the unanchored nested regex has no `$`). -/
def g2SrchN (t : List Char) : Nat → Option (List Char)
  | 0 => none
  | k + 1 =>
    if startsWithCI extPat (t.drop (k + 1)) then some (t.take (k + 1 + 5))
    else g2SrchN t k

/-- Greedy entry point for the nested group 2. -/
def g2TryN (t : List Char) : Option (List Char) :=
  g2SrchN t (t.takeWhile alnumSlash).length

/-- Lazy `[^\s&]+?` of the nested regex. -/
def nestedInner (t : List Char) : Nat → Nat → Option (Nat × List Char)
  | 0, _ => none
  | fuel + 1, r =>
    match g2TryN (t.drop r) with
    | some g2 => some (r, g2)
    | none => nestedInner t fuel (r + 1)

/-- One start position of the unanchored nested regex
`(&url=https?:\/\/[^\s&]+?)([a-z0-9/]+\.m3u8)/i`. -/
def nestedTry (qp : List Char) (m : Nat) : Option (List Char × List Char) :=
  if startsWithCI "&url=".data (qp.drop m) then
    match matchScheme (qp.drop (m + 5)) with
    | none => none
    | some (sch2, tail2) =>
      match nestedInner tail2 (tail2.takeWhile nonAmpSpace).length 1 with
      | some (r, g2) => some ((qp.drop m).take (5 + sch2.length + r), g2)
      | none => none
  else none

/-- Leftmost-match scan of the unanchored nested regex. -/
def nestedScan (qp : List Char) : Nat → Nat → Option (List Char × List Char)
  | _, 0 => none
  | m, fuel + 1 =>
    match nestedTry qp m with
    | some r => some r
    | none => nestedScan qp (m + 1) fuel

/-- `queryParams.match(/(&url=https?:\/\/[^\s&]+?)([a-z0-9/]+\.m3u8)/i)`
returning (group1 `urlBase`, group2 `m3u8Path`). -/
def matchNestedUrl (qp : List Char) : Option (List Char × List Char) :=
  nestedScan qp 0 (qp.length + 1)

/-! ### Truncation helpers -/

/-- `s.search(/[A-Z]/)`. -/
def firstUpperIdx : List Char → Option Nat
  | [] => none
  | c :: cs => if isUpperAZ c then some 0 else (firstUpperIdx cs).map (· + 1)

/-- `if (idxUp !== -1) s = s.slice(0, idxUp)`: truncate at the first ASCII
uppercase letter. -/
def truncAtUpper (s : List Char) : List Char :=
  match firstUpperIdx s with
  | some i => s.take i
  | none => s

/-- `const i = s.indexOf('.m3u8'); if (i !== -1) s = s.slice(0, i + 6)`. -/
def cutAfterM3u8 (s : List Char) : List Char :=
  match firstOccur extPat s with
  | some i => s.take (i + 6)
  | none => s

/-! ### `new URL` / `searchParams` model (final acceptance gate) -/

/-- WHATWG forbidden host code points (plus `%`, conservatively). -/
def forbiddenHostChar (c : Char) : Bool :=
  c == Char.ofNat 0 || c == '\t' || c == '\n' || c == '\r' || c == ' ' ||
  c == '#' || c == '/' || c == ':' || c == '<' || c == '>' || c == '?' ||
  c == '@' || c == '[' || c == '\\' || c == ']' || c == '^' || c == '|' || c == '%'

/-- Numeric value of a digit string. -/
def portVal (p : List Char) : Nat :=
  p.foldl (fun a c => a * 10 + (c.toNat - 48)) 0

/-- A port is valid if empty, or all digits with value at most 65535. -/
def portOk (p : List Char) : Bool :=
  p.all (fun c => c.isDigit) && (p.isEmpty || decide (portVal p ≤ 65535))

/-- The query component: the part after the first `?` of the
path-and-after region, stopping at `#`. -/
def extractQuery (afterAuth : List Char) : List Char :=
  match (afterAuth.takeWhile (fun c => c != '#')).dropWhile (fun c => c != '?') with
  | [] => []
  | _ :: rest => rest

/-- The authority component: everything before the first `/`, `?`, `#`
or `\` of the after-scheme region. -/
def authOf (rest : List Char) : List Char :=
  rest.takeWhile (fun c => !(c == '/' || c == '?' || c == '#' || c == '\\'))

/-- Host-and-port: the part of the authority after the last `@`. -/
def hostportOf (auth : List Char) : List Char :=
  (auth.reverse.takeWhile (fun c => c != '@')).reverse

/-- The host: host-and-port up to the first `:`. -/
def hostOf (hostport : List Char) : List Char :=
  hostport.takeWhile (fun c => c != ':')

/-- Conditions under which `new URL` throws for an `http(s)` input:
empty host, forbidden host code point, or invalid port. -/
def hostBad (rest : List Char) : Bool :=
  (hostOf (hostportOf (authOf rest))).isEmpty ||
  (hostOf (hostportOf (authOf rest))).any forbiddenHostChar ||
  !portOk ((hostportOf (authOf rest)).drop ((hostOf (hostportOf (authOf rest))).length + 1))

/-- `new URL(f)` reduced to what the gate needs: `none` models a thrown
`TypeError`; `some q` returns the raw query component. -/
def queryOf (f : List Char) : Option (List Char) :=
  match matchScheme f with
  | none => none
  | some (_, rest) =>
    if hostBad rest then none
    else some (extractQuery (rest.drop (authOf rest).length))

/-- Value of a hex digit. -/
def hexVal (c : Char) : Nat :=
  if c.isDigit then c.toNat - 48
  else if decide ('a' ≤ c.toLower) && decide (c.toLower ≤ 'f') then c.toLower.toNat - 87
  else 0

/-- Hex digit test. -/
def isHexDigit (c : Char) : Bool :=
  c.isDigit || (decide ('a' ≤ c.toLower) && decide (c.toLower ≤ 'f'))

/-- `application/x-www-form-urlencoded` decoding of one token:
`+` becomes space, valid `%XX` decodes. -/
def pdecode : List Char → List Char
  | [] => []
  | '+' :: r => ' ' :: pdecode r
  | '%' :: h1 :: h2 :: r2 =>
    if isHexDigit h1 && isHexDigit h2 then Char.ofNat (16 * hexVal h1 + hexVal h2) :: pdecode r2
    else '%' :: pdecode (h1 :: h2 :: r2)
  | c :: r => c :: pdecode r

/-- Split on `&`. -/
def splitAmp : List Char → List (List Char)
  | [] => [[]]
  | '&' :: r => [] :: splitAmp r
  | c :: r =>
    match splitAmp r with
    | [] => [[c]]
    | p :: ps => (c :: p) :: ps

/-- `URLSearchParams` pair list: nonempty `&`-separated pieces, split at
the first `=`, both sides decoded. -/
def pairsOf (q : List Char) : List (List Char × List Char) :=
  ((splitAmp q).filter (fun p => !p.isEmpty)).map (fun piece =>
    match firstOccur ['='] piece with
    | some i => (pdecode (piece.take i), pdecode (piece.drop (i + 1)))
    | none => (pdecode piece, []))

/-- `searchParams.get(name)`: first pair with that exact name. -/
def getParam (q : List Char) (name : List Char) : Option (List Char) :=
  ((pairsOf q).find? (fun p => p.1 == name)).map (fun p => p.2)

/-- `v.split('/')`'s last element: the suffix after the last `/`. -/
def lastSeg (v : List Char) : List Char :=
  (v.reverse.takeWhile (fun c => c != '/')).reverse

/-- `!/[A-Z]/.test(l)`. -/
def noUpperL (l : List Char) : Bool :=
  l.all (fun c => !isUpperAZ c)

/-- `v.replace('.m3u8', '')`: remove the first occurrence. -/
def removeFirstM3u8 (v : List Char) : List Char :=
  match firstOccur extPat v with
  | some i => v.take i ++ v.drop (i + 5)
  | none => v

/-- Strip a literal `.m3u8` suffix if present (the spec's wording of the
gate's url-parameter preprocessing). -/
def stripM3u8Suffix (v : List Char) : List Char :=
  if decide (5 ≤ v.length) && (v.drop (v.length - 5) == extPat) then v.take (v.length - 5)
  else v

/-- The final acceptance gate (utils.js lines 118-139): parse the result,
check the video hash of the `id` parameter and of the `url` parameter. -/
def gatePass (f : List Char) : Bool :=
  match queryOf f with
  | none => false
  | some q =>
    (match getParam q "id".data with
     | some v => noUpperL (lastSeg v)
     | none => true) &&
    (match getParam q "url".data with
     | some v => noUpperL (removeFirstM3u8 (lastSeg v))
     | none => true)

/-! ### `sanitizeUrl` assembly -/

/-- The candidate `finalUrl` built by the shape-A / shape-B branches
(utils.js lines 72-114); `none` models `finalUrl === null`. -/
def finalUrlOf (cleaned : List Char) : Option (List Char) :=
  match matchIndexId cleaned with
  | some (b, idp, qp) =>
    let idp2 := truncAtUpper idp
    match firstOccur "&url=".data qp with
    | some i =>
      match matchNestedUrl qp with
      | some (ubase, mpath) =>
        some (b ++ idp2 ++ qp.take i ++ ubase ++ cutAfterM3u8 (truncAtUpper mpath))
      | none => some (b ++ idp2 ++ qp)
    | none => some (b ++ idp2 ++ qp)
  | none =>
    match matchIndexM3u8 cleaned with
    | some (b, m, _) => some (b ++ cutAfterM3u8 (truncAtUpper m))
    | none => none

/-- `sanitizeUrl` on `List Char`: normalization, mp4 early return, shape
branches, final gate.  Total by construction (the JS `try/catch` returns
`null` on any internal throw; every fallible step is an `Option` here). -/
def sanitizeCore (s : List Char) : Option (List Char) :=
  let cleaned := cleanQuery s
  match matchMp4 cleaned with
  | some r => some r
  | none =>
    match finalUrlOf cleaned with
    | none => none
    | some f => if gatePass f then some f else none

/-- `sanitizeUrl` (utils.js lines 55-146). -/
def sanitizeUrl (url : String) : Option String :=
  (sanitizeCore url.data).map String.mk

/-! ### Job registry (job-processor.js lines 279-291, 366-378) -/

/-- `const MAX_TABS_PER_JOB = 40`. -/
def MAX_TABS_PER_JOB : Nat := 40

/-- `const JOB_MAX_AGE = 900000` (15 minutes). -/
def JOB_MAX_AGE : Nat := 900000

/-- One registry entry: `{ cancelled, timestamp }`. -/
structure JobInfo where
  cancelled : Bool
  timestamp : Nat
deriving DecidableEq

/-- The `jobs` map, as an insertion-ordered association list with unique
keys (JS `Map`). -/
abbrev Registry := List (String × JobInfo)

/-- `jobs.set(k, v)`: replace in place or append. -/
def regSet (reg : Registry) (k : String) (v : JobInfo) : Registry :=
  if reg.any (fun p => p.1 == k) then
    reg.map (fun p => if p.1 == k then (k, v) else p)
  else reg ++ [(k, v)]

/-- `jobs.delete(k)`. -/
def regDelete (reg : Registry) (k : String) : Registry :=
  reg.filter (fun p => p.1 != k)

/-- `getRunningJobIds()`: ids of non-cancelled entries. -/
def getRunningJobIds (reg : Registry) : List String :=
  (reg.filter (fun p => !p.2.cancelled)).map (fun p => p.1)

/-- One reaper sweep (job-processor.js lines 284-291): delete entries with
a truthy timestamp whose age exceeds `JOB_MAX_AGE`. -/
def reaperSweep (now : Nat) (reg : Registry) : Registry :=
  reg.filter (fun p => !(p.2.timestamp != 0 && decide (JOB_MAX_AGE < now - p.2.timestamp)))

/-- `cancelJob(jobId)`: flip the flag if present, report existence. -/
def cancelJob (reg : Registry) (jobId : String) : Bool × Registry :=
  if reg.any (fun p => p.1 == jobId) then
    (true, reg.map (fun p => if p.1 == jobId then (p.1, ⟨true, p.2.timestamp⟩) else p))
  else (false, reg)

/-! ### Tab opener with retry (job-processor.js lines 294-325) -/

/-- `isTransientTabError` (lines 294-298): case-insensitive test of the
four alternatives. -/
def isTransientTabError (msg : String) : Bool :=
  containsCI "Tabs cannot be edited right now".data msg.data ||
  containsCI "user may be dragging a tab".data msg.data ||
  containsCI "currently being dragged".data msg.data ||
  containsCI "No browser window".data msg.data

/-- Outcome of one `chrome.tabs.create` call: resolve with a tab whose
`id` may be null, or reject with an error message. -/
inductive TabOutcome where
  | success (tabId : Option Nat)
  | failure (msg : String)
deriving DecidableEq

/-- The environment a job run is evaluated against (see the file header). -/
structure JobEnv where
  tabResult : Nat → Nat → TabOutcome
  groupOutcome : Option Nat
  cancelTick : Option Nat
  reapTick : Option Nat

/-- Value of `jobs.get(jobId)?.cancelled` (coerced to `Bool`) at poll `t`:
false once the reaper has deleted the entry, true once `cancelJob` has
flipped the flag. -/
def pollCancelled (env : JobEnv) (t : Nat) : Bool :=
  (match env.reapTick with
   | some d => decide (t < d)
   | none => true) &&
  (match env.cancelTick with
   | some c => decide (c ≤ t)
   | none => false)

/-- `Math.min(2000, 100 + attempt * 150)`. -/
def backoffWait (attempt : Nat) : Nat :=
  min 2000 (100 + attempt * 150)

/-- The value `createTabWithRetry` returns for a given create outcome. -/
def resOf : TabOutcome → Option (Option Nat)
  | .success t => some t
  | .failure _ => none

/-- An outcome causes a retry (when attempts remain) iff it is a failure
with a transient message. -/
def retryableOutcome : TabOutcome → Bool
  | .success _ => false
  | .failure m => isTransientTabError m

/-- First attempt index at which the retry loop stops, starting from
`a` with `fuel` retries left (`fuel = maxRetries - a`). -/
def stopAttempt (out : Nat → TabOutcome) : Nat → Nat → Nat
  | a, 0 => a
  | a, fuel + 1 => if retryableOutcome (out a) then stopAttempt out (a + 1) fuel else a

/-- Result of `createTabWithRetry`: the returned value, the backoff waits
performed, the number of `chrome.tabs.create` calls, and the clock after
the call. -/
structure TabAttemptResult where
  tab : Option (Option Nat)
  waits : List Nat
  creates : Nat
  clock : Nat
deriving DecidableEq

/-- The `while (true)` loop of `createTabWithRetry`; `fuel` is
`maxRetries + 1 - attempt`, which the loop never exhausts. -/
def createTabGo (env : JobEnv) (urlIdx maxRetries : Nat) : Nat → Nat → Nat → TabAttemptResult
  | _, clock, 0 => ⟨none, [], 0, clock⟩
  | attempt, clock, fuel + 1 =>
    if pollCancelled env clock then ⟨none, [], 0, clock + 1⟩
    else
      match env.tabResult urlIdx attempt with
      | .success tid => ⟨some tid, [], 1, clock + 1⟩
      | .failure msg =>
        if isTransientTabError msg && decide (attempt < maxRetries) then
          let r := createTabGo env urlIdx maxRetries (attempt + 1) (clock + 1) fuel
          ⟨r.tab, backoffWait attempt :: r.waits, r.creates + 1, r.clock⟩
        else ⟨none, [], 1, clock + 1⟩

/-- `createTabWithRetry` (lines 301-325): sanitize first, then the retry
loop; never throws (total, returns a `TabAttemptResult`). -/
def createTabWithRetry (env : JobEnv) (urlIdx : Nat) (url : String) (clock : Nat)
    (maxRetries : Nat) : TabAttemptResult :=
  match sanitizeUrl url with
  | none => ⟨none, [], 0, clock⟩
  | some _ => createTabGo env urlIdx maxRetries 0 clock (maxRetries + 1)

/-! ### Job orchestrator (job-processor.js lines 328-364) -/

/-- `[s, s+1, ..., s+n-1]`. -/
def natsFrom (s : Nat) : Nat → List Nat
  | 0 => []
  | n + 1 => s :: natsFrom (s + 1) n

/-- `tab?.id != null ? tab.id : nothing`: the id pushed for one URL. -/
def evOf : Option (Option Nat) → Option Nat
  | some (some i) => some i
  | _ => none

/-- Result of the `for (const u of urls)` loop: accumulated tab ids, one
event `(urlIndex, pushed id?)` per URL actually processed, total create
calls, final clock. -/
structure LoopResult where
  tabIds : List Nat
  events : List (Nat × Option Nat)
  creates : Nat
  clock : Nat
deriving DecidableEq

/-- The orchestrator loop: poll-cancel at the head, open with retry, push
the id when non-null, optional cancellable delay. -/
def jobLoop (env : JobEnv) (delayMs : Nat) : Nat → Nat → List String → LoopResult
  | _, clock, [] => ⟨[], [], 0, clock⟩
  | idx, clock, u :: rest =>
    if pollCancelled env clock then ⟨[], [], 0, clock + 1⟩
    else
      let r := createTabWithRetry env idx u (clock + 1) 20
      let ev : Option Nat := evOf r.tab
      if 0 < delayMs then
        if pollCancelled env r.clock then ⟨ev.toList, [(idx, ev)], r.creates, r.clock + 1⟩
        else
          let l := jobLoop env delayMs (idx + 1) (r.clock + 1) rest
          ⟨ev.toList ++ l.tabIds, (idx, ev) :: l.events, r.creates + l.creates, l.clock⟩
      else
        let l := jobLoop env delayMs (idx + 1) r.clock rest
        ⟨ev.toList ++ l.tabIds, (idx, ev) :: l.events, r.creates + l.creates, l.clock⟩

/-- `{ count, groupId, cancelled }`. -/
structure BatchResult where
  count : Nat
  groupId : Option Nat
  cancelled : Bool
deriving DecidableEq

/-- Everything observable about one `processUrlJob` run. -/
structure JobRunResult where
  outcome : Except String BatchResult
  registry : Registry
  tabIds : List Nat
  events : List (Nat × Option Nat)
  grouped : Option (List Nat)
  creates : Nat

/-- `processUrlJob` (lines 328-364): ceiling check, registration, loop,
best-effort grouping, final cancelled read, and the `finally` delete. -/
def processUrlJob (env : JobEnv) (reg : Registry) (urls : List String) (delayMs : Nat)
    (jobId : String) (now : Nat) : JobRunResult :=
  if MAX_TABS_PER_JOB < urls.length then
    ⟨.error "Cannot open more than 40 tabs at once.", reg, [], [], none, 0⟩
  else
    let reg1 := regSet reg jobId ⟨false, now⟩
    let lr := jobLoop env delayMs 0 0 urls
    let grouped : Option (List Nat) := if lr.tabIds.isEmpty then none else some lr.tabIds
    let groupId : Option Nat := if lr.tabIds.isEmpty then none else env.groupOutcome
    let wasCancelled := pollCancelled env lr.clock
    ⟨.ok ⟨lr.tabIds.length, groupId, wasCancelled⟩, regDelete reg1 jobId,
      lr.tabIds, lr.events, grouped, lr.creates⟩

/-! ### Concrete environments used by the witnesses -/

/-- An environment whose create calls always fail permanently. -/
def envC1 : JobEnv := ⟨fun _ _ => .failure "boom", none, none, none⟩

/-- An environment with successful creates and a successful grouping. -/
def envC2 : JobEnv := ⟨fun _ _ => .success (some 3), some 11, none, none⟩

/-- An environment whose job is cancelled from the very first poll. -/
def envC3 : JobEnv := ⟨fun _ _ => .success (some 1), some 9, some 0, none⟩

/-- An environment where only the first URL's create succeeds. -/
def envC4 : JobEnv :=
  ⟨fun i _ => if i == 0 then .success (some 5) else .failure "nope", some 8, none, none⟩

/-- An environment failing transiently twice, then succeeding. -/
def envC5 : JobEnv :=
  ⟨fun _ a => if a < 2 then .failure "Tabs cannot be edited right now"
              else .success (some 7), none, none, none⟩

/-- An environment whose registry entry is reaped from tick 0 onward,
with no cancel request. -/
def envC10 : JobEnv := ⟨fun _ _ => .success (some 2), none, none, some 0⟩

/-! ### Basic facts about the cancellation oracle and the registry -/

theorem pollCancelled_of_cancelTick_none (env : JobEnv) (h : env.cancelTick = none) (t : Nat) :
    pollCancelled env t = false := by
  simp [pollCancelled, h]

theorem pollCancelled_of_cancel_zero (env : JobEnv) (hc : env.cancelTick = some 0)
    (hr : env.reapTick = none) (t : Nat) : pollCancelled env t = true := by
  simp [pollCancelled, hc, hr]

theorem not_mem_running_delete (reg : Registry) (k : String) :
    k ∉ getRunningJobIds (regDelete reg k) := by
  intro h
  simp only [getRunningJobIds, regDelete, List.mem_map, List.mem_filter] at h
  obtain ⟨p, ⟨⟨_, hne⟩, _⟩, hk⟩ := h
  simp [bne_iff_ne] at hne
  exact hne hk

/-- C1: for every input whose urls list is longer than `MAX_TABS_PER_JOB`
(40), `processUrlJob` throws the input-validation error before opening any
tab (no create call, no event, no grouping) and before registering the
job, leaving the registry unchanged. -/
theorem C1_ceiling_rejects (env : JobEnv) (reg : Registry) (urls : List String)
    (delayMs : Nat) (jobId : String) (now : Nat)
    (h : MAX_TABS_PER_JOB < urls.length) :
    processUrlJob env reg urls delayMs jobId now =
      ⟨.error "Cannot open more than 40 tabs at once.", reg, [], [], none, 0⟩ := by
  unfold processUrlJob
  rw [if_pos h]

theorem C1_ceiling_rejects_witness :
    MAX_TABS_PER_JOB < (List.replicate 41 "u").length ∧
    processUrlJob envC1 [("old", ⟨false, 2⟩)] (List.replicate 41 "u") 0 "j" 5 =
      ⟨.error "Cannot open more than 40 tabs at once.", [("old", ⟨false, 2⟩)], [], [], none, 0⟩ :=
  ⟨by decide, C1_ceiling_rejects envC1 [("old", ⟨false, 2⟩)] (List.replicate 41 "u") 0 "j" 5 (by decide)⟩

/-- C2: for every run of `processUrlJob` that passes the ceiling check,
whatever the environment does (normal completion, early break on
cancellation, reaper interference, per-URL failures), the job id is absent
from `getRunningJobIds` of the resulting registry: the `finally` delete is
the last registry operation. -/
theorem C2_registry_cleanup (env : JobEnv) (reg : Registry) (urls : List String)
    (delayMs : Nat) (jobId : String) (now : Nat)
    (h : urls.length ≤ MAX_TABS_PER_JOB) :
    jobId ∉ getRunningJobIds (processUrlJob env reg urls delayMs jobId now).registry := by
  unfold processUrlJob
  rw [if_neg (by omega)]
  exact not_mem_running_delete _ _

theorem C2_registry_cleanup_witness :
    ("u" :: []).length ≤ MAX_TABS_PER_JOB ∧
    "j" ∉ getRunningJobIds (processUrlJob envC2 [] ["u"] 0 "j" 7).registry :=
  ⟨by decide, C2_registry_cleanup envC2 [] ["u"] 0 "j" 7 (by decide)⟩

/-- C3: if the job's cancelled flag is already set at the first poll
(cancel invoked after registration but before any URL is processed) and
the entry is not reaped, `processUrlJob` returns
`{count: 0, groupId: null, cancelled: true}` without a single
`chrome.tabs.create` call. -/
theorem C3_cancel_before_start (env : JobEnv) (reg : Registry) (urls : List String)
    (delayMs : Nat) (jobId : String) (now : Nat)
    (hlen : urls.length ≤ MAX_TABS_PER_JOB)
    (hc : env.cancelTick = some 0) (hr : env.reapTick = none) :
    (processUrlJob env reg urls delayMs jobId now).outcome = .ok ⟨0, none, true⟩ ∧
    (processUrlJob env reg urls delayMs jobId now).tabIds = [] ∧
    (processUrlJob env reg urls delayMs jobId now).events = [] ∧
    (processUrlJob env reg urls delayMs jobId now).grouped = none ∧
    (processUrlJob env reg urls delayMs jobId now).creates = 0 := by
  have hp := pollCancelled_of_cancel_zero env hc hr
  unfold processUrlJob
  rw [if_neg (by omega)]
  cases urls with
  | nil => simp [jobLoop, hp]
  | cons u rest => simp [jobLoop, hp]

theorem C3_cancel_before_start_witness :
    (processUrlJob envC3 [] ["https://x.example/index.html?id=abc", "u2"] 1000 "j" 4).outcome =
        .ok ⟨0, none, true⟩ ∧
    (processUrlJob envC3 [] ["https://x.example/index.html?id=abc", "u2"] 1000 "j" 4).creates = 0 :=
  ⟨(C3_cancel_before_start envC3 [] _ 1000 "j" 4 (by decide) rfl rfl).1,
   (C3_cancel_before_start envC3 [] _ 1000 "j" 4 (by decide) rfl rfl).2.2.2.2⟩

/-- C10: (a) one reaper sweep deletes an entry only when its timestamp is
truthy and its age strictly exceeds `JOB_MAX_AGE`; (b) the deletion of the
job's registry entry never aborts an in-flight loop: with no cancel
request, the loop processes every URL no matter when (or whether) the
reaper deletes the entry (`reapTick` arbitrary), since a deleted entry
makes the cancellation poll read false. -/
theorem C10_reaper_sweep :
    (∀ (now : Nat) (reg : Registry) (e : String × JobInfo),
        e ∈ reg → e ∉ reaperSweep now reg →
        e.2.timestamp ≠ 0 ∧ JOB_MAX_AGE < now - e.2.timestamp) ∧
    (∀ (env : JobEnv) (delayMs idx clock : Nat) (urls : List String),
        env.cancelTick = none →
        (jobLoop env delayMs idx clock urls).events.length = urls.length) := by
  constructor
  · intro now reg e hmem hnot
    simp only [reaperSweep, List.mem_filter, not_and] at hnot
    have hb : ¬e.2.timestamp = 0 ∧ JOB_MAX_AGE + e.2.timestamp < now := by
      simpa using hnot hmem
    exact ⟨hb.1, by omega⟩
  · intro env delayMs idx clock urls h
    induction urls generalizing idx clock with
    | nil => simp [jobLoop]
    | cons u rest ih =>
      have hp := pollCancelled_of_cancelTick_none env h
      by_cases hd : 0 < delayMs
      · simp [jobLoop, hp, hd, ih]
      · simp [jobLoop, hp, hd, ih]

/-! ### Loop characterization (C4) and retry characterization (C5) -/

theorem jobLoop_events (env : JobEnv) (delayMs : Nat) :
    ∀ (urls : List String) (idx clock : Nat),
      (jobLoop env delayMs idx clock urls).tabIds
          = (jobLoop env delayMs idx clock urls).events.filterMap (fun e => e.2) ∧
      (jobLoop env delayMs idx clock urls).events.map (fun e => e.1)
          = natsFrom idx (jobLoop env delayMs idx clock urls).events.length ∧
      (jobLoop env delayMs idx clock urls).events.length ≤ urls.length := by
  intro urls
  induction urls with
  | nil => intro idx clock; simp [jobLoop, natsFrom]
  | cons u rest ih =>
    intro idx clock
    by_cases h1 : pollCancelled env clock = true
    · simp [jobLoop, h1, natsFrom]
    · by_cases hd : 0 < delayMs
      · by_cases h2 : pollCancelled env (createTabWithRetry env idx u (clock + 1) 20).clock = true
        · cases hev : evOf (createTabWithRetry env idx u (clock + 1) 20).tab <;>
            simp [jobLoop, h1, hd, h2, hev, natsFrom]
        · obtain ⟨ih1, ih2, ih3⟩ :=
            ih (idx + 1) ((createTabWithRetry env idx u (clock + 1) 20).clock + 1)
          cases hev : evOf (createTabWithRetry env idx u (clock + 1) 20).tab <;>
            simp [jobLoop, h1, hd, h2, hev, natsFrom, ih1, ih2, ih3]
      · obtain ⟨ih1, ih2, ih3⟩ :=
          ih (idx + 1) (createTabWithRetry env idx u (clock + 1) 20).clock
        cases hev : evOf (createTabWithRetry env idx u (clock + 1) 20).tab <;>
          simp [jobLoop, h1, hd, hev, natsFrom, ih1, ih2, ih3]

/-- C4: for every run past the ceiling check, in every environment: the
returned count is the length of the accumulated tab-id list; grouping is
invoked exactly on that list (when nonempty); the list consists of exactly
the successful opens, in processing order; and the processed URLs form a
prefix of the input — indices `0, 1, ...` in input order — so the grouped
handles are a subsequence of the input URL order. -/
theorem C4_group_order (env : JobEnv) (reg : Registry) (urls : List String)
    (delayMs : Nat) (jobId : String) (now : Nat)
    (h : urls.length ≤ MAX_TABS_PER_JOB) :
    (processUrlJob env reg urls delayMs jobId now).outcome =
        .ok ⟨(processUrlJob env reg urls delayMs jobId now).tabIds.length,
             (if (processUrlJob env reg urls delayMs jobId now).tabIds.isEmpty then none
              else env.groupOutcome),
             pollCancelled env (jobLoop env delayMs 0 0 urls).clock⟩ ∧
    (processUrlJob env reg urls delayMs jobId now).grouped =
        (if (processUrlJob env reg urls delayMs jobId now).tabIds.isEmpty then none
         else some (processUrlJob env reg urls delayMs jobId now).tabIds) ∧
    (processUrlJob env reg urls delayMs jobId now).tabIds =
        (processUrlJob env reg urls delayMs jobId now).events.filterMap (fun e => e.2) ∧
    (processUrlJob env reg urls delayMs jobId now).events.map (fun e => e.1) =
        natsFrom 0 (processUrlJob env reg urls delayMs jobId now).events.length ∧
    (processUrlJob env reg urls delayMs jobId now).events.length ≤ urls.length := by
  have hl := jobLoop_events env delayMs urls 0 0
  unfold processUrlJob
  rw [if_neg (by omega)]
  exact ⟨rfl, rfl, hl.1, hl.2.1, hl.2.2⟩

theorem C4_group_order_witness :
    (processUrlJob envC4 [] ["https://x.example/index.html?id=abc", "u2"] 0 "j" 1).outcome =
        .ok ⟨(processUrlJob envC4 [] ["https://x.example/index.html?id=abc", "u2"] 0 "j" 1).tabIds.length,
             (if (processUrlJob envC4 [] ["https://x.example/index.html?id=abc", "u2"] 0 "j" 1).tabIds.isEmpty
              then none else envC4.groupOutcome),
             pollCancelled envC4 (jobLoop envC4 0 0 0 ["https://x.example/index.html?id=abc", "u2"]).clock⟩ ∧
    (processUrlJob envC4 [] ["https://x.example/index.html?id=abc", "u2"] 0 "j" 1).grouped =
        (if (processUrlJob envC4 [] ["https://x.example/index.html?id=abc", "u2"] 0 "j" 1).tabIds.isEmpty
         then none
         else some (processUrlJob envC4 [] ["https://x.example/index.html?id=abc", "u2"] 0 "j" 1).tabIds) ∧
    (processUrlJob envC4 [] ["https://x.example/index.html?id=abc", "u2"] 0 "j" 1).tabIds =
        (processUrlJob envC4 [] ["https://x.example/index.html?id=abc", "u2"] 0 "j" 1).events.filterMap
          (fun e => e.2) ∧
    (processUrlJob envC4 [] ["https://x.example/index.html?id=abc", "u2"] 0 "j" 1).events.map
        (fun e => e.1) =
        natsFrom 0 (processUrlJob envC4 [] ["https://x.example/index.html?id=abc", "u2"] 0 "j" 1).events.length ∧
    (processUrlJob envC4 [] ["https://x.example/index.html?id=abc", "u2"] 0 "j" 1).events.length ≤
      (["https://x.example/index.html?id=abc", "u2"] : List String).length :=
  C4_group_order envC4 [] ["https://x.example/index.html?id=abc", "u2"] 0 "j" 1 (by decide)

theorem stopAttempt_ge (out : Nat → TabOutcome) :
    ∀ (fuel a : Nat), a ≤ stopAttempt out a fuel := by
  intro fuel
  induction fuel with
  | zero => intro a; simp [stopAttempt]
  | succ f ih =>
    intro a
    by_cases h : retryableOutcome (out a) = true
    · have h2 : stopAttempt out a (f + 1) = stopAttempt out (a + 1) f := by
        simp [stopAttempt, h]
      have := ih (a + 1)
      omega
    · have h2 : stopAttempt out a (f + 1) = a := by simp [stopAttempt, h]
      omega

theorem createTabGo_spec (env : JobEnv) (i maxR : Nat)
    (hp : ∀ t, pollCancelled env t = false) :
    ∀ (f a clock : Nat), maxR - a = f →
      createTabGo env i maxR a clock (f + 1) =
        ⟨resOf (env.tabResult i (stopAttempt (env.tabResult i) a f)),
         (natsFrom a (stopAttempt (env.tabResult i) a f - a)).map backoffWait,
         stopAttempt (env.tabResult i) a f - a + 1,
         clock + (stopAttempt (env.tabResult i) a f - a) + 1⟩ := by
  intro f
  induction f with
  | zero =>
    intro a clock ha
    cases h : env.tabResult i a with
    | success tid => simp [createTabGo, hp, h, stopAttempt, resOf, natsFrom]
    | failure m =>
      have hnl : ¬ (a < maxR) := by omega
      simp [createTabGo, hp, h, stopAttempt, resOf, natsFrom, hnl]
  | succ f ih =>
    intro a clock ha
    cases h : env.tabResult i a with
    | success tid =>
      simp [createTabGo, hp, h, stopAttempt, retryableOutcome, resOf, natsFrom]
    | failure m =>
      by_cases ht : isTransientTabError m = true
      · have ha2 : a < maxR := by omega
        have hrec := ih (a + 1) (clock + 1) (by omega)
        have hstop : stopAttempt (env.tabResult i) a (f + 1) =
            stopAttempt (env.tabResult i) (a + 1) f := by
          simp [stopAttempt, retryableOutcome, h, ht]
        have hgo : createTabGo env i maxR a clock (f + 1 + 1) =
            ⟨(createTabGo env i maxR (a + 1) (clock + 1) (f + 1)).tab,
             backoffWait a :: (createTabGo env i maxR (a + 1) (clock + 1) (f + 1)).waits,
             (createTabGo env i maxR (a + 1) (clock + 1) (f + 1)).creates + 1,
             (createTabGo env i maxR (a + 1) (clock + 1) (f + 1)).clock⟩ := by
          simp [createTabGo, hp, h, ht, ha2]
        rw [hgo, hrec, hstop]
        have hs := stopAttempt_ge (env.tabResult i) f (a + 1)
        have hsa : stopAttempt (env.tabResult i) (a + 1) f - a =
            (stopAttempt (env.tabResult i) (a + 1) f - (a + 1)) + 1 := by omega
        rw [hsa]
        simp only [natsFrom, List.map_cons, TabAttemptResult.mk.injEq, true_and, and_true]
        omega
      · have hstop : stopAttempt (env.tabResult i) a (f + 1) = a := by
          simp [stopAttempt, retryableOutcome, h, ht]
        simp [createTabGo, hp, h, ht, hstop, resOf, natsFrom]

/-- C5: `createTabWithRetry` never throws (it is a total function into
`TabAttemptResult`); a sanitization rejection returns null with no create
call; and, absent cancellation, a failed attempt is retried exactly while
the error message matches the transient pattern and the attempt count is
below `maxRetries`, waiting `min(2000, 100 + 150 × attempt)` ms before
each retry (`stopAttempt` is the first attempt that is a success, a
non-transient failure, or attempt `maxRetries`); the stopping outcome is
returned on success and yields null (a permanent skip) otherwise. -/
theorem C5_retry_policy :
    (∀ (env : JobEnv) (i clock maxR : Nat) (url : String),
        sanitizeUrl url = none →
        createTabWithRetry env i url clock maxR = ⟨none, [], 0, clock⟩) ∧
    (∀ (env : JobEnv) (i clock maxR : Nat) (url cu : String),
        env.cancelTick = none → sanitizeUrl url = some cu →
        createTabWithRetry env i url clock maxR =
          ⟨resOf (env.tabResult i (stopAttempt (env.tabResult i) 0 maxR)),
           (natsFrom 0 (stopAttempt (env.tabResult i) 0 maxR)).map
             (fun a => min 2000 (100 + 150 * a)),
           stopAttempt (env.tabResult i) 0 maxR + 1,
           clock + stopAttempt (env.tabResult i) 0 maxR + 1⟩) := by
  constructor
  · intro env i clock maxR url h
    simp [createTabWithRetry, h]
  · intro env i clock maxR url cu hc hs
    have hp := pollCancelled_of_cancelTick_none env hc
    have hgo := createTabGo_spec env i maxR hp maxR 0 clock (by omega)
    have hfun : backoffWait = fun a => min 2000 (100 + 150 * a) := by
      funext a; simp [backoffWait, Nat.mul_comm]
    simp only [createTabWithRetry, hs]
    rw [hgo]
    simp [hfun]

theorem C5_retry_policy_witness :
    createTabWithRetry envC5 0 "https://x.example/index.html?id=abc123XYZmore" 0 20 =
      ⟨some (some 7), [100, 250], 3, 3⟩ :=
  (C5_retry_policy.2 envC5 0 0 20 "https://x.example/index.html?id=abc123XYZmore"
      "https://x.example/index.html?id=abc123" rfl (by decide)).trans (by decide)

theorem C10_reaper_sweep_witness :
    (("a", (⟨false, 1⟩ : JobInfo)).2.timestamp ≠ 0 ∧
      JOB_MAX_AGE < 1000000 - ("a", (⟨false, 1⟩ : JobInfo)).2.timestamp) ∧
    (jobLoop envC10 0 0 0 ["https://x.example/index.html?id=abc", "u2"]).events.length =
      (["https://x.example/index.html?id=abc", "u2"] : List String).length :=
  ⟨C10_reaper_sweep.1 1000000 [("a", ⟨false, 1⟩)] ("a", ⟨false, 1⟩) (by decide) (by decide),
   C10_reaper_sweep.2 envC10 0 0 0 ["https://x.example/index.html?id=abc", "u2"] rfl⟩

/-! ### Sanitizer claims -/

theorem truncAtUpper_eq_takeWhile (s : List Char) :
    truncAtUpper s = s.takeWhile (fun c => !isUpperAZ c) := by
  induction s with
  | nil => rfl
  | cons c cs ih =>
    by_cases h : isUpperAZ c = true
    · simp [truncAtUpper, firstUpperIdx, h, List.takeWhile_cons]
    · cases h2 : firstUpperIdx cs with
      | none =>
        have ihx : cs = cs.takeWhile (fun c => !isUpperAZ c) := by
          simpa [truncAtUpper, h2] using ih
        simp [truncAtUpper, firstUpperIdx, h, h2, List.takeWhile_cons, ← ihx]
      | some i =>
        have ihx : cs.take i = cs.takeWhile (fun c => !isUpperAZ c) := by
          simpa [truncAtUpper, h2] using ih
        simp [truncAtUpper, firstUpperIdx, h, h2, List.takeWhile_cons, List.take_succ_cons, ← ihx]

/-- C7: shape A truncates the ID at the first ASCII uppercase letter found
anywhere within it: `truncAtUpper` is truncation at the first uppercase
character; on a shape-A match (with no nested `&url=`) the accepted result
is `base ++ truncAtUpper id ++ rest`; and in particular the spec's
scenario input is rewritten to `.../index.html?id=abc123`. -/
theorem C7_shapeA_truncation :
    (∀ s : List Char, truncAtUpper s = s.takeWhile (fun c => !isUpperAZ c)) ∧
    (∀ (u : String) (b idp qp : List Char),
        matchMp4 (cleanQuery u.data) = none →
        matchIndexId (cleanQuery u.data) = some (b, idp, qp) →
        firstOccur "&url=".data qp = none →
        gatePass (b ++ truncAtUpper idp ++ qp) = true →
        sanitizeUrl u = some (String.mk (b ++ truncAtUpper idp ++ qp))) ∧
    sanitizeUrl "https://x.example/index.html?id=abc123XYZmore" =
      some "https://x.example/index.html?id=abc123" := by
  refine ⟨truncAtUpper_eq_takeWhile, ?_, by decide⟩
  intro u b idp qp h1 h2 h3 h4
  have h4x : gatePass (b ++ (truncAtUpper idp ++ qp)) = true := by
    rw [← List.append_assoc]; exact h4
  simp [sanitizeUrl, sanitizeCore, finalUrlOf, h1, h2, h3, h4x, List.append_assoc]

theorem C7_shapeA_truncation_witness :
    sanitizeUrl "https://x.example/index.html?id=abc123XYZmore" =
      some (String.mk ("https://x.example/index.html?id=".data ++
        truncAtUpper "abc123XYZmore".data ++ [])) :=
  C7_shapeA_truncation.2.1 "https://x.example/index.html?id=abc123XYZmore"
    "https://x.example/index.html?id=".data "abc123XYZmore".data [] (by decide) (by decide)
    (by decide) (by decide)

/-- C8: shape B truncates the matched `.m3u8` path segment at its first
uppercase letter and then cuts after a literal `.m3u8` occurrence
(`cutAfterM3u8 ∘ truncAtUpper`); on the spec's scenario input the result
is `https://x.example/p?url=https://cdn.example/a`, which ends at the
uppercase truncation point and contains neither `extra` nor any `.m3u8`
occurrence (so nothing after an extension). -/
theorem C8_shapeB_truncation :
    (∀ (u : String) (b m g3 : List Char),
        matchMp4 (cleanQuery u.data) = none →
        matchIndexId (cleanQuery u.data) = none →
        matchIndexM3u8 (cleanQuery u.data) = some (b, m, g3) →
        gatePass (b ++ cutAfterM3u8 (truncAtUpper m)) = true →
        sanitizeUrl u = some (String.mk (b ++ cutAfterM3u8 (truncAtUpper m)))) ∧
    (sanitizeUrl "https://x.example/p?url=https://cdn.example/aBcD.m3u8extra" =
        some "https://x.example/p?url=https://cdn.example/a" ∧
      containsCI "extra".data "https://x.example/p?url=https://cdn.example/a".data = false ∧
      containsCI extPat "https://x.example/p?url=https://cdn.example/a".data = false) := by
  refine ⟨?_, by decide, by decide, by decide⟩
  intro u b m g3 h1 h2 h3 h4
  simp [sanitizeUrl, sanitizeCore, finalUrlOf, h1, h2, h3, h4]

theorem C8_shapeB_truncation_witness :
    sanitizeUrl "https://x.example/p?url=https://cdn.example/aBcD.m3u8extra" =
      some (String.mk ("https://x.example/p?url=https://cdn.".data ++
        cutAfterM3u8 (truncAtUpper "example/aBcD.m3u8".data))) :=
  C8_shapeB_truncation.1 "https://x.example/p?url=https://cdn.example/aBcD.m3u8extra"
    "https://x.example/p?url=https://cdn.".data "example/aBcD.m3u8".data "extra".data
    (by decide) (by decide) (by decide) (by decide)

/-- C9: the sanitizer is total — for every input string it returns `none`
or a string, never an exception (its type is `String → Option String` and
every fallible step is an `Option`); in particular a URL-parse failure in
the final acceptance gate (`queryOf` returning `none`, modelling a thrown
`TypeError`) makes `sanitizeUrl` return `none`. -/
theorem C9_sanitize_total :
    (∀ u : String, sanitizeUrl u = none ∨ ∃ r, sanitizeUrl u = some r) ∧
    (∀ (u : String) (f : List Char),
        matchMp4 (cleanQuery u.data) = none →
        finalUrlOf (cleanQuery u.data) = some f →
        queryOf f = none →
        sanitizeUrl u = none) := by
  constructor
  · intro u
    cases h : sanitizeUrl u with
    | none => exact Or.inl rfl
    | some r => exact Or.inr ⟨r, rfl⟩
  · intro u f h1 h2 h3
    have hg : gatePass f = false := by
      unfold gatePass
      rw [h3]
    simp [sanitizeUrl, sanitizeCore, h1, h2, hg]

theorem C9_sanitize_total_witness :
    sanitizeUrl "https://a[/index.html?id=ab" = none :=
  C9_sanitize_total.2 "https://a[/index.html?id=ab" "https://a[/index.html?id=ab".data
    (by decide) (by decide) (by decide)

/-! ### The final acceptance gate invariant (C6) -/

theorem isPrefixOf_decomp : ∀ (p l : List Char), p.isPrefixOf l = true → l = p ++ l.drop p.length := by
  intro p
  induction p with
  | nil => intro l _; simp
  | cons a as ih =>
    intro l h
    cases l with
    | nil => simp [List.isPrefixOf] at h
    | cons b bs =>
      simp only [List.isPrefixOf, Bool.and_eq_true, beq_iff_eq] at h
      obtain ⟨hab, h2⟩ := h
      subst hab
      have := ih bs h2
      simp only [List.length_cons, List.drop_succ_cons, List.cons_append]
      exact congrArg (List.cons a) this

theorem firstOccur_decomp (pat : List Char) :
    ∀ (l : List Char) (i : Nat), firstOccur pat l = some i →
      l = l.take i ++ pat ++ l.drop (i + pat.length) := by
  intro l
  induction l with
  | nil =>
    intro i h
    simp only [firstOccur] at h
    by_cases hp : pat.isEmpty = true
    · rw [if_pos hp] at h
      have hi : i = 0 := by simpa using h.symm
      have hpat : pat = [] := by cases pat with | nil => rfl | cons a as => simp at hp
      subst hi; subst hpat; simp
    · rw [if_neg hp] at h; simp at h
  | cons c cs ih =>
    intro i h
    simp only [firstOccur] at h
    by_cases hp : pat.isPrefixOf (c :: cs) = true
    · rw [if_pos hp] at h
      have hi : i = 0 := by simpa using h.symm
      subst hi
      have := isPrefixOf_decomp pat (c :: cs) hp
      simpa using this
    · rw [if_neg hp] at h
      cases h2 : firstOccur pat cs with
      | none => rw [h2] at h; simp at h
      | some j =>
        rw [h2] at h
        have hi : i = j + 1 := by simpa using h.symm
        subst hi
        have hd := ih j h2
        have harr : j + 1 + pat.length = (j + pat.length) + 1 := by omega
        simp only [List.take_succ_cons, harr, List.drop_succ_cons, List.cons_append]
        exact congrArg (List.cons c) hd

theorem noUpperL_append (a b : List Char) :
    noUpperL (a ++ b) = (noUpperL a && noUpperL b) := by
  simp [noUpperL, List.all_append]

theorem noUpper_removeFirstM3u8 (v : List Char) :
    noUpperL (removeFirstM3u8 v) = noUpperL v := by
  unfold removeFirstM3u8
  cases h : firstOccur extPat v with
  | none => rfl
  | some i =>
    have hd := firstOccur_decomp extPat v i h
    have hlen : extPat.length = 5 := by decide
    rw [hlen] at hd
    conv_rhs => rw [hd]
    simp [noUpperL_append, (by decide : noUpperL extPat = true)]

theorem noUpper_stripM3u8Suffix (v : List Char) :
    noUpperL (stripM3u8Suffix v) = noUpperL v := by
  unfold stripM3u8Suffix
  by_cases h : (decide (5 ≤ v.length) && (v.drop (v.length - 5) == extPat)) = true
  · rw [if_pos h]
    have h2 := (Bool.and_eq_true _ _ |>.mp h).2
    have hdrop : v.drop (v.length - 5) = extPat := by simpa using h2
    conv_rhs => rw [← List.take_append_drop (v.length - 5) v, hdrop]
    simp [noUpperL_append, (by decide : noUpperL extPat = true)]
  · rw [if_neg h]

theorem startsWithCI_chars : ∀ (pat l : List Char), startsWithCI pat l = true →
    ∀ c ∈ l.take pat.length, ∃ p ∈ pat, eqCI p c = true := by
  intro pat
  induction pat with
  | nil => intro l _ c hc; simp at hc
  | cons p ps ih =>
    intro l h c hc
    cases l with
    | nil => simp [startsWithCI] at h
    | cons b bs =>
      simp only [startsWithCI, Bool.and_eq_true] at h
      obtain ⟨h1, h2⟩ := h
      simp only [List.length_cons, List.take_succ_cons, List.mem_cons] at hc
      cases hc with
      | inl hcb => subst hcb; exact ⟨p, List.mem_cons_self _ _, h1⟩
      | inr hmem =>
        obtain ⟨pp, hpp, he⟩ := ih bs h2 c hmem
        exact ⟨pp, List.mem_cons_of_mem _ hpp, he⟩

theorem startsWithCI_no_qmark (pat l : List Char)
    (hall : pat.all (fun p => p.toLower != '?') = true)
    (h : startsWithCI pat l = true) : ∀ c ∈ l.take pat.length, c ≠ '?' := by
  intro c hc hcq
  subst hcq
  obtain ⟨p, hp, he⟩ := startsWithCI_chars pat l h _ hc
  have hp2 := List.all_eq_true.mp hall p hp
  simp only [eqCI, beq_iff_eq] at he
  have hqq : ('?' : Char).toLower = '?' := by decide
  rw [hqq] at he
  rw [he] at hp2
  simp at hp2

theorem labelsGo_chars : ∀ (fuel : Nat) (l : List Char), labelsGo fuel l = true →
    ∀ c ∈ l, labelChar c = true ∨ c = '.' := by
  intro fuel
  induction fuel with
  | zero =>
    intro l h c hc
    cases l with
    | nil => simp at hc
    | cons a as => simp [labelsGo] at h
  | succ f ih =>
    intro l h c hc
    cases l with
    | nil => simp at hc
    | cons a as =>
      rw [labelsGo] at h
      split at h
      · exact absurd h (by simp)
      · rename_i d rest2 hdw
        split at h
        · rename_i hd
          subst hd
          obtain ⟨_, h2⟩ := Bool.and_eq_true _ _ |>.mp h
          have hsplit := List.takeWhile_append_dropWhile (p := labelChar) (l := a :: as)
          rw [← hsplit] at hc
          rcases List.mem_append.mp hc with hx | hx
          · exact Or.inl (List.mem_takeWhile_imp hx)
          · rw [hdw] at hx
            rcases List.mem_cons.mp hx with rfl | hx2
            · exact Or.inr rfl
            · exact ih rest2 h2 c hx2
        · exact absurd h (by simp)

theorem mp4Scan_sound (t : List Char) : ∀ (fuel m : Nat), mp4Scan t m fuel = true →
    ∃ m2, startsWithCI "idomoo.com/".data (t.drop m2) = true ∧
      labelsGo (t.take m2).length (t.take m2) = true ∧
      mp4SuffixOk (t.drop (m2 + 11)) = true := by
  intro fuel
  induction fuel with
  | zero => intro m h; simp [mp4Scan] at h
  | succ f ih =>
    intro m h
    rw [mp4Scan] at h
    rcases Bool.or_eq_true _ _ |>.mp h with h1 | h2
    · rcases Bool.and_eq_true _ _ |>.mp h1 with ⟨h3, h4⟩
      rcases Bool.and_eq_true _ _ |>.mp h3 with ⟨h5, h6⟩
      exact ⟨m, h5, h6, h4⟩
    · exact ih (m + 1) h2

theorem matchScheme_parts (s sch t : List Char) (h : matchScheme s = some (sch, t)) :
    (startsWithCI "https://".data s = true ∧ sch = s.take 8 ∧ t = s.drop 8) ∨
    (startsWithCI "http://".data s = true ∧ sch = s.take 7 ∧ t = s.drop 7) := by
  unfold matchScheme at h
  by_cases h8 : startsWithCI "https://".data s = true
  · rw [if_pos h8] at h
    simp only [Option.some.injEq, Prod.mk.injEq] at h
    exact Or.inl ⟨h8, h.1.symm, h.2.symm⟩
  · rw [if_neg h8] at h
    by_cases h7 : startsWithCI "http://".data s = true
    · rw [if_pos h7] at h
      simp only [Option.some.injEq, Prod.mk.injEq] at h
      exact Or.inr ⟨h7, h.1.symm, h.2.symm⟩
    · rw [if_neg h7] at h; simp at h

theorem matchMp4_no_qmark (s r : List Char) (h : matchMp4 s = some r) :
    ∀ c ∈ r, c ≠ '?' := by
  unfold matchMp4 at h
  cases hms : matchScheme s with
  | none => rw [hms] at h; simp at h
  | some pr =>
    obtain ⟨sch, t⟩ := pr
    simp only [hms] at h
    by_cases hsc : mp4Scan t 0 (t.length + 1) = true
    · rw [if_pos hsc] at h
      have hr : r = s := by simpa using h.symm
      subst hr
      obtain ⟨m2, hmid, hlab, hsuf⟩ := mp4Scan_sound t _ _ hsc
      -- characters of t are label chars, the ci `idomoo.com/` region, or path chars
      have htq : ∀ c ∈ t, c ≠ '?' := by
        intro c hc
        rw [← List.take_append_drop m2 t] at hc
        rcases List.mem_append.mp hc with hx | hx
        · rcases labelsGo_chars _ _ hlab c hx with hl | hdot
          · intro hq; subst hq; simp [labelChar] at hl
          · subst hdot; intro hq; cases hq
        · rw [← List.take_append_drop 11 (t.drop m2)] at hx
          rcases List.mem_append.mp hx with hy | hy
          · have h11 : ("idomoo.com/".data).length = 11 := by decide
            refine startsWithCI_no_qmark _ _ (by decide) hmid c ?_
            rw [h11]; exact hy
          · rw [List.drop_drop] at hy
            have hy2 : c ∈ t.drop (m2 + 11) := by
              simpa [Nat.add_comm] using hy
            have hall := (Bool.and_eq_true _ _ |>.mp
              ((Bool.and_eq_true _ _ |>.mp hsuf).1)).1
            have := List.all_eq_true.mp hall c hy2
            intro hq; subst hq; simp [mp4PathChar] at this
      intro c hc
      rcases matchScheme_parts r sch t hms with ⟨hsw, _, hT⟩ | ⟨hsw, _, hT⟩
      · rw [← List.take_append_drop 8 r] at hc
        rcases List.mem_append.mp hc with hx | hx
        · have h8 : ("https://".data).length = 8 := by decide
          refine startsWithCI_no_qmark _ _ (by decide) hsw c ?_
          rw [h8]; exact hx
        · exact htq c (by rw [hT]; exact hx)
      · rw [← List.take_append_drop 7 r] at hc
        rcases List.mem_append.mp hc with hx | hx
        · have h7 : ("http://".data).length = 7 := by decide
          refine startsWithCI_no_qmark _ _ (by decide) hsw c ?_
          rw [h7]; exact hx
        · exact htq c (by rw [hT]; exact hx)
    · rw [if_neg hsc] at h; simp at h

theorem extractQuery_no_qmark (a : List Char) (hnq : ∀ c ∈ a, c ≠ '?') :
    extractQuery a = [] := by
  unfold extractQuery
  have hdw : (a.takeWhile (fun c => c != '#')).dropWhile (fun c => c != '?') = [] := by
    rw [List.dropWhile_eq_nil_iff]
    intro x hx
    have hxa : x ∈ a := (List.takeWhile_prefix _).subset hx
    simpa [bne_iff_ne] using hnq x hxa
  rw [hdw]

theorem queryOf_no_qmark (l q : List Char) (h : queryOf l = some q)
    (hnq : ∀ c ∈ l, c ≠ '?') : q = [] := by
  unfold queryOf at h
  cases hms : matchScheme l with
  | none => rw [hms] at h; simp at h
  | some pr =>
    obtain ⟨sch, rest⟩ := pr
    simp only [hms] at h
    have hrest : ∀ c ∈ rest, c ≠ '?' := by
      rcases matchScheme_parts l sch rest hms with ⟨_, _, hT⟩ | ⟨_, _, hT⟩ <;>
        (subst hT; intro c hc; exact hnq c (List.mem_of_mem_drop hc))
    by_cases hb : hostBad rest = true
    · rw [if_pos hb] at h; simp at h
    · rw [if_neg hb] at h
      injection h with h2
      subst h2
      exact extractQuery_no_qmark _ (fun c hc => hrest c (List.mem_of_mem_drop hc))

theorem getParam_nil (name : List Char) : getParam [] name = none := by
  simp [getParam, pairsOf, splitAmp]

theorem gatePass_checks (f q : List Char) (hq : queryOf f = some q) (hg : gatePass f = true) :
    (∀ v, getParam q "id".data = some v → noUpperL (lastSeg v) = true) ∧
    (∀ v, getParam q "url".data = some v →
      noUpperL (removeFirstM3u8 (lastSeg v)) = true) := by
  unfold gatePass at hg
  simp only [hq] at hg
  constructor
  · intro v hv
    rw [hv] at hg
    exact (Bool.and_eq_true _ _ |>.mp hg).1
  · intro v hv
    rw [hv] at hg
    exact (Bool.and_eq_true _ _ |>.mp hg).2

/-- C6: every accepted result satisfies the gate: if it carries an `id`
query parameter, the last `/`-segment of the value has no ASCII uppercase
character; if it carries a `url` query parameter, the last `/`-segment
after stripping a `.m3u8` suffix has no uppercase character (the code
removes the first `.m3u8` occurrence, which agrees with suffix-stripping
on the uppercase test since the removed characters are lowercase); and
uppercase confined to other query parameters does not by itself cause
rejection, witnessed by an accepted result whose `FOO` parameter is
uppercase. -/
theorem C6_gate_hash_case :
    (∀ (u r : String), sanitizeUrl u = some r →
      ∀ q : List Char, queryOf r.data = some q →
        (∀ v, getParam q "id".data = some v → noUpperL (lastSeg v) = true) ∧
        (∀ v, getParam q "url".data = some v →
          noUpperL (stripM3u8Suffix (lastSeg v)) = true)) ∧
    (sanitizeUrl "https://x.example/index.html?id=abc&FOO=BAR" =
        some "https://x.example/index.html?id=abc&FOO=BAR" ∧
      "https://x.example/index.html?id=abc&FOO=BAR".data.any (fun c => isUpperAZ c) = true) := by
  constructor
  · intro u r hs q hq
    have hcore : ∃ l, sanitizeCore u.data = some l ∧ r = String.mk l := by
      cases h : sanitizeCore u.data with
      | none => simp [sanitizeUrl, h] at hs
      | some l => exact ⟨l, rfl, by simpa [sanitizeUrl, h] using hs.symm⟩
    obtain ⟨l, hcore, rfl⟩ := hcore
    have hrd : (String.mk l).data = l := rfl
    rw [hrd] at hq
    cases hmp : matchMp4 (cleanQuery u.data) with
    | some r2 =>
      simp only [sanitizeCore, hmp, Option.some.injEq] at hcore
      subst hcore
      have hnq := matchMp4_no_qmark _ _ hmp
      have hqe : q = [] := queryOf_no_qmark _ q hq hnq
      subst hqe
      constructor <;> intro v hv <;> rw [getParam_nil] at hv <;> exact absurd hv (by simp)
    | none =>
      simp only [sanitizeCore, hmp] at hcore
      cases hfu : finalUrlOf (cleanQuery u.data) with
      | none => rw [hfu] at hcore; simp at hcore
      | some f =>
        simp only [hfu] at hcore
        by_cases hg : gatePass f = true
        · rw [if_pos hg] at hcore
          obtain rfl : f = l := by simpa using hcore
          have hck := gatePass_checks f q hq hg
          refine ⟨hck.1, ?_⟩
          intro v hv
          have h1 := hck.2 v hv
          rw [noUpper_stripM3u8Suffix]
          rw [noUpper_removeFirstM3u8] at h1
          exact h1
        · rw [if_neg hg] at hcore; simp at hcore
  · exact ⟨by decide, by decide⟩

theorem C6_gate_hash_case_witness :
    sanitizeUrl "https://x.example/index.html?id=abc&FOO=BAR" =
        some "https://x.example/index.html?id=abc&FOO=BAR" ∧
    noUpperL (lastSeg "abc".data) = true :=
  ⟨by decide,
   (C6_gate_hash_case.1 "https://x.example/index.html?id=abc&FOO=BAR"
      "https://x.example/index.html?id=abc&FOO=BAR" (by decide) "id=abc&FOO=BAR".data
      (by decide)).1 "abc".data (by decide)⟩

end SupportToolkit
